import Mathlib

/-!
Verification of the SEBAK consensus-core specification against a shallow
embedding of the source.

The embedding follows the Go source under `lib/`:
blocks and their persistence keys (`lib/block/block.go`), the local node and
its validator registry (`lib/node/localNode.go`), the broadcast dispatch of
the validator connection manager (`lib/network/validator_connection_manager.go`),
and the payment-operation well-formedness check
(`lib/transaction/operation_payment.go`).  The transaction validator
`ValidateTx` and a few constants live in repository files that are not part
of the sources at hand; those definitions are modelled from the
specification and marked as such in their doc comments.

Machine integers are modelled as `Nat` with explicit `% 2 ^ 64` where Go
performs a conversion that can overflow.  The mutable LevelDB storage is
modelled as an association list of keyed records; functions that mutate it
in Go thread it explicitly and return the (possibly partially updated)
storage together with an optional error, mirroring the fact that a Go
function returning early after some writes leaves those writes in place.
-/

namespace Sebak

/-- Error codes of `lib/error`.  The error package itself is not among the
sources; the codes are modelled from the specification (§7), plus the
record-already-exists failure of the storage backend `New` operation. -/
inductive Err where
  | blockAlreadyExists
  | blockNotFound
  | blockAccountDoesNotExists
  | blockAccountAlreadyExists
  | transactionInvalidSequenceID
  | transactionExcessAbilityToPay
  | operationAmountUnderflow
  | badPublicAddress
  | storageRecordAlreadyExists
deriving DecidableEq, Repr

/-- A block account: `(address, balance, sequenceID)` as in
`BlockAccount` (spec §3); `balance` and `sequenceID` model Go `uint64`. -/
structure BlockAccount where
  address : String
  balance : Nat
  sequenceID : Nat
deriving DecidableEq, Repr

/-- A consensus round: `(blockHeight, roundNumber, prevBlockHash, totalTxs)`. -/
structure Round where
  blockHeight : Nat
  roundNumber : Nat
  prevBlockHash : String
  totalTxs : Nat
deriving DecidableEq, Repr

/-- A block, as in `lib/block/block.go`: header fields (height,
previous-block hash, transactions root), the transaction hash list, its own
hash, confirmed time, proposer and round. -/
structure Block where
  height : Nat
  prevBlockHash : String
  transactionsRoot : String
  transactions : List String
  hash : String
  confirmed : String
  proposer : String
  round : Round
deriving DecidableEq, Repr

/-- The zero value `Block{}` of Go: every field empty. -/
def emptyBlock : Block :=
  { height := 0, prevBlockHash := "", transactionsRoot := "", transactions := []
    hash := "", confirmed := "", proposer := "", round := ⟨0, 0, "", 0⟩ }

/-- A value stored in the key/value storage: a block record, a string
record (a hash, as JSON), or an account record. -/
inductive StorageValue where
  | block (b : Block)
  | str (s : String)
  | account (a : BlockAccount)
deriving DecidableEq, Repr

/-- The LevelDB storage, modelled as an association list of keyed records. -/
abbrev Storage := List (String × StorageValue)

/-- Storage `Has`: whether a record with the given key exists. -/
def hasKey (st : Storage) (k : String) : Bool :=
  st.any (fun p => p.1 = k)

/-- Storage `Get`: the value stored under a key, when present. -/
def getVal (st : Storage) (k : String) : Option StorageValue :=
  (st.find? (fun p => p.1 = k)).map (fun p => p.2)

/-- Storage `New` of the LevelDB backend: create a record, failing when the
key is already present.  Returns the updated storage and an optional
error; on error the storage is unchanged. -/
def newRecord (st : Storage) (k : String) (v : StorageValue) : Storage × Option Err :=
  if hasKey st k then (st, some Err.storageRecordAlreadyExists)
  else (st ++ [(k, v)], none)

/-- Storage `Set`-like insertion used by `BlockAccount.Save`: replace the
record when the key is present, append it otherwise. -/
def setVal (st : Storage) (k : String) (v : StorageValue) : Storage :=
  if hasKey st k then st.map (fun p => if p.1 = k then (k, v) else p)
  else st ++ [(k, v)]

/-- Constant `BaseFee = 10000` of `lib/common` (present among the sources). -/
def BaseFee : Nat := 10000

/-- Constant `maxBlockHeightStringLength = 20` of `lib/block/block.go`. -/
def maxBlockHeightStringLength : Nat := 20

/-- Constant `GenesisBlockConfirmedTime` of `lib/common`. -/
def GenesisBlockConfirmedTime : String := "2018-04-17T5:07:31.000000000Z"

/-- Modelled from the spec: the storage key family `block/hash/<hash>`
(§6); the constant `common.BlockPrefixHash` is not among the sources. -/
def BlockPrefixHash : String := "block/hash/"

/-- Modelled from the spec: the storage key family
`block/confirmed/<iso8601>-...` (§6); the constant
`common.BlockPrefixConfirmed` is not among the sources. -/
def BlockPrefixConfirmed : String := "block/confirmed/"

/-- Modelled from the spec: the storage key family
`block/height/<20-digit-zero-padded>` (§6); the constant
`common.BlockPrefixHeight` is not among the sources. -/
def BlockPrefixHeight : String := "block/height/"

/-- Modelled from the spec: the storage key family `account/<addr>` (§6);
the account-key constant of `lib/block` is not among the sources. -/
def BlockAccountPrefixAddress : String := "account/"

/-- Big-endian decimal digits, fuel-based so that it is structural; the
fuel is instantiated with the number itself, which always suffices. -/
def digitsAux : Nat → Nat → List Nat
  | 0, _ => []
  | fuel + 1, n => if n = 0 then [] else digitsAux fuel (n / 10) ++ [n % 10]

/-- Big-endian decimal digits of a number (empty for `0`), modelling the
digit sequence printed by the format verb `%d`. -/
def toDigitsBE (n : Nat) : List Nat :=
  digitsAux n n

/-- The decimal digits of a height, left-padded with zeros to
`maxBlockHeightStringLength` digits, as the format `%020d` prints (a
number with more digits is printed in full). -/
def heightDigits (h : Nat) : List Nat :=
  List.replicate (maxBlockHeightStringLength - (toDigitsBE h).length) 0 ++ toDigitsBE h

/-- The character of a single decimal digit. -/
def digitChar : Nat → Char
  | 0 => '0' | 1 => '1' | 2 => '2' | 3 => '3' | 4 => '4'
  | 5 => '5' | 6 => '6' | 7 => '7' | 8 => '8' | 9 => '9'
  | _ => '*'

/-- A decimal string of a number, used where Go formats a `uint64`. -/
def natDecimalString (n : Nat) : String :=
  String.mk ((toDigitsBE n).map digitChar)

/-- The numeric value denoted by a big-endian digit list. -/
def beVal : List Nat → Nat
  | [] => 0
  | d :: ds => d * 10 ^ ds.length + beVal ds

/-- `GetBlockKey` of `lib/block/block.go`: `BlockPrefixHash + hash`. -/
def GetBlockKey (hash : String) : String :=
  BlockPrefixHash ++ hash

/-- `GetBlockKeyPrefixConfirmed` of `lib/block/block.go`:
`BlockPrefixConfirmed + confirmed + "-"`. -/
def GetBlockKeyPrefixConfirmed (confirmed : String) : String :=
  BlockPrefixConfirmed ++ confirmed ++ "-"

/-- `GetBlockKeyPrefixHeight` of `lib/block/block.go`: the height printed
with `%020d` between `BlockPrefixHeight` and a trailing `-`.  Built as one
character list, which is the same string the `Sprintf` produces. -/
def GetBlockKeyPrefixHeight (height : Nat) : String :=
  String.mk (BlockPrefixHeight.data ++ (heightDigits height).map digitChar ++ ['-'])

/-- Modelled from the spec: `common.EncodeUint64ToByteSlice` is not among
the sources; the height component of the confirmed key is abstracted as a
decimal string (no claim depends on its byte-level encoding). -/
def EncodeUint64ToByteSlice (n : Nat) : String :=
  natDecimalString n

/-- `Block.NewBlockKeyConfirmed` of `lib/block/block.go`: the confirmed
prefix for the block, the encoded height, and a fresh unique id.  The
unique id produced by `common.GetUniqueIDFromUUID` is passed in as `uid`. -/
def Block.newBlockKeyConfirmed (b : Block) (uid : String) : String :=
  GetBlockKeyPrefixConfirmed b.confirmed ++ EncodeUint64ToByteSlice b.height ++ uid

/-- `Block.Save` of `lib/block/block.go`: refuse a hash that is already
stored, then create the three records (hash → block, confirmed key → hash,
height key → hash) one after the other with the storage `New` operation,
returning at the first failure.  The returned storage reflects the records
written before a failure, as the mutable Go storage does. -/
def Block.save (b : Block) (uid : String) (st : Storage) : Storage × Option Err :=
  if hasKey st (GetBlockKey b.hash) then (st, some Err.blockAlreadyExists)
  else
    let r1 := newRecord st (GetBlockKey b.hash) (StorageValue.block b)
    if r1.2.isSome then r1
    else
      let r2 := newRecord r1.1 (b.newBlockKeyConfirmed uid) (StorageValue.str b.hash)
      if r2.2.isSome then r2
      else newRecord r2.1 (GetBlockKeyPrefixHeight b.height) (StorageValue.str b.hash)

/-- `getTransactionRoot` of `lib/block/block.go` calls the canonical object
hash of `lib/common`, which is not among the sources; modelled from the
spec as an injective encoding of the hash list. -/
def getTransactionRoot (txs : List String) : String :=
  "root:" ++ String.intercalate "," txs

/-- Modelled from the spec: the canonical object hash of a block
(`common.MustMakeObjectHash`, not among the sources), abstracted as an
injective encoding of the hashed header fields. -/
def blockHashOf (height : Nat) (prev root confirmed proposer : String)
    (txs : List String) : String :=
  "bk:" ++ natDecimalString height ++ ":" ++ prev ++ ":" ++ root ++ ":" ++
    confirmed ++ ":" ++ proposer ++ ":" ++ String.intercalate "," txs

/-- `NewBlock` of `lib/block/block.go` together with `NewBlockHeader`
(whose file is not among the sources): the header height is the round
height plus one — modelled from the spec, whose genesis block with an
empty round sits at height 1 — and the block hash is the object hash of
the block content. -/
def NewBlock (proposer : String) (r : Round) (transactions : List String)
    (confirmed : String) : Block :=
  let height := r.blockHeight + 1
  let root := getTransactionRoot transactions
  { height := height, prevBlockHash := r.prevBlockHash, transactionsRoot := root
    transactions := transactions
    hash := blockHashOf height r.prevBlockHash root confirmed proposer transactions
    confirmed := confirmed, proposer := proposer, round := r }

/-- Modelled from the spec: the hash of the genesis create-account
transaction (the transaction hashing lives outside the sources at hand),
abstracted as an injective encoding of the genesis account. -/
def genesisTxHash (acct : BlockAccount) : String :=
  "tx:" ++ acct.address ++ ":" ++ natDecimalString acct.balance ++ ":" ++
    natDecimalString acct.sequenceID

/-- Modelled from the spec: the storage key under which
`BlockTransaction.Save` records a block transaction (its file is not among
the sources); one record keyed by the transaction hash. -/
def BlockTransactionKey (txHash : String) : String :=
  "blocktransaction/hash/" ++ txHash

/-- `MakeGenesisBlock` of `lib/block/block.go`: when a block at height 1
exists, fail with `BlockAlreadyExists` and change nothing; otherwise build
the genesis create-account transaction, save the genesis block and the
block transaction.  `uid` stands for the fresh unique id used in the
confirmed key. -/
def MakeGenesisBlock (acct : BlockAccount) (uid : String) (st : Storage) :
    Storage × Option Err :=
  if hasKey st (GetBlockKeyPrefixHeight 1) then (st, some Err.blockAlreadyExists)
  else
    let txh := genesisTxHash acct
    let blk := NewBlock "" ⟨0, 0, "", 0⟩ [txh] GenesisBlockConfirmedTime
    match blk.save uid st with
    | (st1, some e) => (st1, some e)
    | (st1, none) => newRecord st1 (BlockTransactionKey txh) (StorageValue.str txh)

/-- `GetBlockAccountKey`: the storage key of an account record. -/
def GetBlockAccountKey (address : String) : String :=
  BlockAccountPrefixAddress ++ address

/-- `GetBlockAccount`: the account stored for an address, when present.
Modelled from the spec: the account file of `lib/block` is not among the
sources; an account record is stored under `account/<addr>` (§6). -/
def GetBlockAccount (st : Storage) (address : String) : Option BlockAccount :=
  match getVal st (GetBlockAccountKey address) with
  | some (StorageValue.account a) => some a
  | _ => none

/-- `BlockAccount.Save`, used by the tests to populate the storage:
store the account record under its address key. -/
def BlockAccount.save (a : BlockAccount) (st : Storage) : Storage :=
  setVal st (GetBlockAccountKey a.address) (StorageValue.account a)

/-- Whether an account exists for the address. -/
def existsBlockAccount (st : Storage) (address : String) : Bool :=
  (GetBlockAccount st address).isSome

/-- The operation type discriminator: `CreateAccount` or `Payment`. -/
inductive OperationType where
  | createAccount
  | payment
deriving DecidableEq, Repr

/-- An operation: its type, target address and amount (a `uint64`). -/
structure Operation where
  type : OperationType
  target : String
  amount : Nat
deriving DecidableEq, Repr

/-- A transaction body: source address, fee, sequence id and operations. -/
structure TransactionBody where
  source : String
  fee : Nat
  sequenceID : Nat
  operations : List Operation
deriving DecidableEq, Repr

/-- Modelled from the spec: the per-operation precondition of `ValidateTx`
(§4.3 step 4; `checker_ballot_transaction.go` is not among the sources,
only its test): a Payment target must exist, a CreateAccount target must
not. -/
def validateOp (st : Storage) (op : Operation) : Option Err :=
  match op.type with
  | OperationType.payment =>
    if existsBlockAccount st op.target then none else some Err.blockAccountDoesNotExists
  | OperationType.createAccount =>
    if existsBlockAccount st op.target then some Err.blockAccountAlreadyExists else none

/-- The operation preconditions checked in sequence, stopping at the first
violation. -/
def validateOps (st : Storage) : List Operation → Option Err
  | [] => none
  | op :: rest =>
    match validateOp st op with
    | some e => some e
    | none => validateOps st rest

/-- The total a transaction needs: the sum of all operation amounts plus
`BaseFee` per operation (spec §4.3 step 5). -/
def totalAmount (ops : List Operation) : Nat :=
  (ops.map (fun op => op.amount)).sum + BaseFee * ops.length

/-- Modelled from the spec: `ValidateTx` of
`lib/node/runner/checker_ballot_transaction.go`, which is not among the
sources (only its test is).  Steps 2–5 of §4.3 in order: source account
exists, sequence ids equal exactly, per-operation target preconditions,
total within the source balance.  Step 1 (well-formedness) is checked
separately, as the test file header records. -/
def ValidateTx (st : Storage) (tx : TransactionBody) : Option Err :=
  match GetBlockAccount st tx.source with
  | none => some Err.blockAccountDoesNotExists
  | some ba =>
    if tx.sequenceID ≠ ba.sequenceID then some Err.transactionInvalidSequenceID
    else
      match validateOps st tx.operations with
      | some e => some e
      | none =>
        if ba.balance < totalAmount tx.operations then
          some Err.transactionExcessAbilityToPay
        else none

/-- The payment operation body of `lib/transaction/operation_payment.go`. -/
structure OperationBodyPayment where
  target : String
  amount : Nat
deriving DecidableEq, Repr

/-- The value of the Go conversion `int64(n)` applied to a `uint64`. -/
def int64OfUInt64 (n : Nat) : Int :=
  if n % 2 ^ 64 < 2 ^ 63 then ((n % 2 ^ 64 : Nat) : Int)
  else ((n % 2 ^ 64 : Nat) : Int) - 2 ^ 64

/-- `OperationBodyPayment.IsWellFormed` of
`lib/transaction/operation_payment.go`: the target must parse as a public
key (the external `keypair.Parse` is abstracted as the predicate
`parseOk`), and the amount, converted to `int64`, must not be below 1. -/
def OperationBodyPayment.isWellFormed (parseOk : String → Bool)
    (o : OperationBodyPayment) : Option Err :=
  if parseOk o.target = false then some Err.badPublicAddress
  else if int64OfUInt64 o.amount < 1 then some Err.operationAmountUnderflow
  else none

/-- Modelled from the spec: the wire message type of a ballot (§6); the
constant of `lib/common` is not among the sources. -/
def BallotMessageType : String := "ballot"

/-- Modelled from the spec: the wire message type of a transaction (§6);
the constant of `lib/common` is not among the sources. -/
def TransactionMessageType : String := "transaction"

/-- What the per-validator send of `Broadcast` does with a message. -/
inductive BroadcastAction where
  | sendBallot
  | sendMessage
  | panicInvalidMessage
deriving DecidableEq, Repr

/-- The dispatch inside `ValidatorConnectionManager.Broadcast` of
`lib/network/validator_connection_manager.go`: a ballot message goes
through `SendBallot`, a transaction message through `SendMessage`, and any
other message type hits `panic("invalid message")`. -/
def broadcastDispatch (msgType : String) : BroadcastAction :=
  if msgType = BallotMessageType then BroadcastAction.sendBallot
  else if msgType = TransactionMessageType then BroadcastAction.sendMessage
  else BroadcastAction.panicInvalidMessage

/-- `Broadcast` fans the same dispatch out to every connected validator. -/
def broadcastActions (connected : List String) (msgType : String) :
    List (String × BroadcastAction) :=
  connected.map (fun addr => (addr, broadcastDispatch msgType))

/-- A remote validator of `lib/node`: address, endpoint and alias. -/
structure Validator where
  address : String
  endpoint : String
  aliasName : String
deriving DecidableEq, Repr

/-- The node states of `lib/node`. -/
inductive NodeState where
  | stateNONE
  | stateBOOTING
  | stateSYNC
  | stateCONSENSUS
  | stateTERMINATING
deriving DecidableEq, Repr

/-- `LocalNode` of `lib/node/localNode.go`: its own address, alias, state
and the validator registry (a map keyed by validator address). -/
structure LocalNode where
  address : String
  aliasName : String
  state : NodeState
  validators : List (String × Validator)
deriving DecidableEq, Repr

/-- Go map insertion `m[k] = v`: replace the entry when the key is
present, append it otherwise. -/
def insertValidator (m : List (String × Validator)) (k : String) (v : Validator) :
    List (String × Validator) :=
  if m.any (fun p => p.1 = k) then m.map (fun p => if p.1 = k then (k, v) else p)
  else m ++ [(k, v)]

/-- `NewLocalNode` of `lib/node/localNode.go`: a fresh node with state
`NONE` and an empty validator registry. -/
def NewLocalNode (address aliasName : String) : LocalNode :=
  { address := address, aliasName := aliasName, state := NodeState.stateNONE, validators := [] }

/-- `LocalNode.AddValidators` of `lib/node/localNode.go`: insert each
given validator into the registry, skipping any whose address equals the
node address. -/
def LocalNode.addValidators (n : LocalNode) (vs : List Validator) : LocalNode :=
  { n with
    validators := vs.foldl
      (fun m va => if n.address = va.address then m else insertValidator m va.address va)
      n.validators }

/-- `LocalNode.HasValidators` of `lib/node/localNode.go`: whether the
registry has an entry for the address. -/
def LocalNode.hasValidators (n : LocalNode) (address : String) : Bool :=
  n.validators.any (fun p => p.1 = address)

/-- Whether the key string starts with the given prefix string, as the
storage iterator prefix match does. -/
def strStartsWith (k p : String) : Bool :=
  k.data.take p.data.length = p.data

/-- The descending key order used by the reverse storage iterator. -/
def confirmedKeyGE (a b : String × StorageValue) : Prop :=
  b.1 ≤ a.1

instance : DecidableRel confirmedKeyGE :=
  fun a b => inferInstanceAs (Decidable (b.1 ≤ a.1))

/-- `GetBlocksByConfirmed` with a reverse iterator: the records whose key
carries the confirmed prefix, in descending key order. -/
def GetBlocksByConfirmedDesc (st : Storage) : List (String × StorageValue) :=
  List.insertionSort confirmedKeyGE
    (st.filter (fun p => strStartsWith p.1 BlockPrefixConfirmed))

/-- `GetLatestBlock` of `lib/block/block.go`: take the first record of the
reverse confirmed iterator — when the iterator is exhausted or the hash
does not resolve, the zero block value is used, as in
`LoadBlocksInsideIterator` — and fail with `BlockNotFound` when the
resulting block has an empty hash. -/
def GetLatestBlock (st : Storage) : Except Err Block :=
  let b : Block :=
    match (GetBlocksByConfirmedDesc st).head? with
    | none => emptyBlock
    | some (_, StorageValue.str h) =>
      match getVal st (GetBlockKey h) with
      | some (StorageValue.block blk) => blk
      | _ => emptyBlock
    | some _ => emptyBlock
  if b.hash = "" then Except.error Err.blockNotFound else Except.ok b

/-! Concrete sample inputs used to instantiate the theorems below. -/

/-- A source account with sequence id 1, as in the sequence-id test. -/
def seqSourceAccount : BlockAccount := ⟨"GSRC", 10000000, 1⟩

/-- A target account present in storage. -/
def seqTargetAccount : BlockAccount := ⟨"GTGT", 10000000, 0⟩

/-- A storage holding the source and target accounts. -/
def seqStorage : Storage :=
  BlockAccount.save seqTargetAccount (BlockAccount.save seqSourceAccount [])

/-- A payment transaction with sequence id 0 against a source at 1. -/
def seqMismatchTx : TransactionBody :=
  ⟨"GSRC", 10000, 0, [⟨OperationType.payment, "GTGT", 10000⟩]⟩

/-- A whole-balance payment transaction with sequence id 0: its total
exceeds the source balance and its sequence id mismatches. -/
def overBalanceSeqMismatchTx : TransactionBody :=
  ⟨"GSRC", 10000, 0, [⟨OperationType.payment, "GTGT", 10000000⟩]⟩

/-- A small payment transaction with the matching sequence id 1. -/
def okPaymentTx : TransactionBody :=
  ⟨"GSRC", 10000, 1, [⟨OperationType.payment, "GTGT", 10000⟩]⟩

/-- A payment to an address absent from storage, with sequence id 0
against a source at 1. -/
def missingTargetSeqMismatchTx : TransactionBody :=
  ⟨"GSRC", 10000, 0, [⟨OperationType.payment, "GMISSING", 10000⟩]⟩

/-- A create-account transaction for a fresh address, sequence id 1. -/
def createFreshTx : TransactionBody :=
  ⟨"GSRC", 10000, 1, [⟨OperationType.createAccount, "GFRESH", 10000⟩]⟩

/-- A storage that already holds a record under the height-1 key but no
block record for the hash `"h1"`. -/
def heightOneTakenStorage : Storage :=
  [(GetBlockKeyPrefixHeight 1, StorageValue.str "other")]

/-- A height-1 block whose hash is not yet in `heightOneTakenStorage`. -/
def collidingHeightBlock : Block :=
  { height := 1, prevBlockHash := "", transactionsRoot := "", transactions := []
    hash := "h1", confirmed := "2018-04-17T5:07:31.000000000Z", proposer := ""
    round := ⟨0, 0, "", 0⟩ }

/-- A storage holding only an account record, hence no saved block. -/
def accountOnlyStorage : Storage :=
  BlockAccount.save seqSourceAccount []

/-! Helper lemmas about the embedded operations. -/

lemma validateOp_some_cases (st : Storage) (op : Operation) (e : Err)
    (h : validateOp st op = some e) :
    e = Err.blockAccountDoesNotExists ∨ e = Err.blockAccountAlreadyExists := by
  unfold validateOp at h
  cases op.type <;> revert h <;> split <;> intro h <;>
    simp_all

lemma validateOps_some_cases (st : Storage) :
    ∀ (ops : List Operation) (e : Err), validateOps st ops = some e →
      e = Err.blockAccountDoesNotExists ∨ e = Err.blockAccountAlreadyExists := by
  intro ops
  induction ops with
  | nil => intro e h; simp [validateOps] at h
  | cons op rest ih =>
    intro e h
    unfold validateOps at h
    revert h
    cases hop : validateOp st op with
    | some e2 =>
      intro h
      simp at h
      subst h
      exact validateOp_some_cases st op e2 hop
    | none => intro h; exact ih e h

lemma validateOps_of_all_none (st : Storage) :
    ∀ (ops : List Operation), (∀ op ∈ ops, validateOp st op = none) →
      validateOps st ops = none := by
  intro ops
  induction ops with
  | nil => intro _; rfl
  | cons op rest ih =>
    intro h
    unfold validateOps
    rw [h op (List.mem_cons_self op rest)]
    exact ih (fun o ho => h o (List.mem_cons_of_mem op ho))

lemma validateOps_first_some (st : Storage) :
    ∀ (pre : List Operation) (op : Operation) (suf : List Operation) (e : Err),
      (∀ o ∈ pre, validateOp st o = none) → validateOp st op = some e →
      validateOps st (pre ++ op :: suf) = some e := by
  intro pre
  induction pre with
  | nil =>
    intro op suf e _ hop
    rw [List.nil_append]
    unfold validateOps
    rw [hop]
  | cons p ps ih =>
    intro op suf e hpre hop
    rw [List.cons_append]
    unfold validateOps
    rw [hpre p (List.mem_cons_self p ps)]
    exact ih op suf e (fun o ho => hpre o (List.mem_cons_of_mem p ho)) hop

/-- C1: with the source account present in storage, `ValidateTx` returns
`TransactionInvalidSequenceID` exactly when the transaction sequence id
differs from the account sequence id (lesser and greater alike); the
exactly-equal value passes this check. -/
theorem validateTx_invalidSequenceID_iff (st : Storage) (tx : TransactionBody)
    (ba : BlockAccount) (hsrc : GetBlockAccount st tx.source = some ba) :
    (ValidateTx st tx = some Err.transactionInvalidSequenceID ↔
      tx.sequenceID ≠ ba.sequenceID) := by
  unfold ValidateTx
  rw [hsrc]
  by_cases h : tx.sequenceID = ba.sequenceID
  · simp only [h, ne_eq, not_true_eq_false, if_false, iff_false]
    cases hv : validateOps st tx.operations with
    | some e =>
      rcases validateOps_some_cases st tx.operations e hv with he | he <;>
        simp [he]
    | none => split <;> simp_all
  · simp [h]

/-- C1 witness: the sequence-id criterion evaluated on the test scenario
(source at sequence id 1, transaction at 0). -/
theorem validateTx_invalidSequenceID_iff_witness :
    ValidateTx seqStorage seqMismatchTx = some Err.transactionInvalidSequenceID :=
  (validateTx_invalidSequenceID_iff seqStorage seqMismatchTx seqSourceAccount
    (by decide)).mpr (by decide)

/-- C5: when a block at height 1 already exists, `MakeGenesisBlock`
returns `BlockAlreadyExists` and leaves the storage unchanged. -/
theorem makeGenesisBlock_idempotent (acct : BlockAccount) (uid : String)
    (st : Storage) (h : hasKey st (GetBlockKeyPrefixHeight 1) = true) :
    MakeGenesisBlock acct uid st = (st, some Err.blockAlreadyExists) := by
  unfold MakeGenesisBlock
  simp [h]

/-- C5 witness: genesis creation refused, storage unchanged, on a concrete
storage already holding a height-1 record. -/
theorem makeGenesisBlock_idempotent_witness :
    MakeGenesisBlock ⟨"GGENESIS", 1000000, 0⟩ "uid" heightOneTakenStorage =
      (heightOneTakenStorage, some Err.blockAlreadyExists) :=
  makeGenesisBlock_idempotent ⟨"GGENESIS", 1000000, 0⟩ "uid" heightOneTakenStorage
    (by decide)

/-- C7: the broadcast dispatch panics exactly when the message type is
neither the ballot type nor the transaction type; a ballot message goes
through `SendBallot` and a transaction message through `SendMessage`. -/
theorem broadcast_dispatch_spec (t : String) :
    (broadcastDispatch t = BroadcastAction.panicInvalidMessage ↔
      t ≠ BallotMessageType ∧ t ≠ TransactionMessageType)
    ∧ (t = BallotMessageType → broadcastDispatch t = BroadcastAction.sendBallot)
    ∧ (t = TransactionMessageType →
        broadcastDispatch t = BroadcastAction.sendMessage) := by
  unfold broadcastDispatch
  split_ifs with h1 h2
  · exact ⟨by simp [h1], fun _ => rfl, fun h => absurd (h1.symm.trans h) (by decide)⟩
  · exact ⟨by simp [h2], fun h => absurd h h1, fun _ => rfl⟩
  · exact ⟨by simp [h1, h2], fun h => absurd h h1, fun h => absurd h h2⟩

/-- C7 witness: the dispatch evaluated on the two wire types and on an
unknown type. -/
theorem broadcast_dispatch_spec_witness :
    broadcastDispatch "ballot" = BroadcastAction.sendBallot
    ∧ broadcastDispatch "transaction" = BroadcastAction.sendMessage
    ∧ broadcastDispatch "mystery" = BroadcastAction.panicInvalidMessage :=
  ⟨(broadcast_dispatch_spec "ballot").2.1 rfl,
   (broadcast_dispatch_spec "transaction").2.2 rfl,
   (broadcast_dispatch_spec "mystery").1.mpr (by decide)⟩

lemma any_replaceKey (k a : String) (v : Validator) (h : k ≠ a) :
    ∀ m : List (String × Validator),
      ((m.map (fun p => if p.1 = k then (k, v) else p)).any (fun p => p.1 = a))
        = m.any (fun p => p.1 = a) := by
  intro m
  induction m with
  | nil => rfl
  | cons p ps ih =>
    by_cases hp : p.1 = k <;> simp [hp, ih, h]

lemma any_insertValidator (m : List (String × Validator)) (k : String)
    (v : Validator) (a : String) (h : k ≠ a) :
    ((insertValidator m k v).any (fun p => p.1 = a)) = m.any (fun p => p.1 = a) := by
  unfold insertValidator
  split
  · exact any_replaceKey k a v h m
  · simp [h]

lemma addValidators_fold_inv (a : String) :
    ∀ (vs : List Validator) (m : List (String × Validator)),
      m.any (fun p => p.1 = a) = false →
      ((vs.foldl
          (fun m va => if a = va.address then m else insertValidator m va.address va)
          m).any (fun p => p.1 = a)) = false := by
  intro vs
  induction vs with
  | nil => intro m hm; exact hm
  | cons va rest ih =>
    intro m hm
    simp only [List.foldl_cons]
    by_cases hva : a = va.address
    · rw [if_pos hva]; exact ih m hm
    · rw [if_neg hva]
      exact ih (insertValidator m va.address va)
        (by rw [any_insertValidator m va.address va a (fun he => hva he.symm)]; exact hm)

lemma addValidators_address (n : LocalNode) (vs : List Validator) :
    (n.addValidators vs).address = n.address := rfl

lemma foldl_addValidators_address (n : LocalNode) :
    ∀ calls : List (List Validator),
      (calls.foldl LocalNode.addValidators n).address = n.address := by
  intro calls
  induction calls generalizing n with
  | nil => rfl
  | cons c rest ih => simpa using ih (n.addValidators c)

lemma hasValidators_addValidators (n : LocalNode) (vs : List Validator)
    (h : n.hasValidators n.address = false) :
    (n.addValidators vs).hasValidators n.address = false := by
  unfold LocalNode.hasValidators LocalNode.addValidators at *
  exact addValidators_fold_inv n.address vs n.validators h

/-- C9: starting from a fresh local node, no sequence of `AddValidators`
calls — whatever validators they carry, the node address included — ever
makes the registry map the node address: `HasValidators` on the node
address stays false. -/
theorem localNode_never_own_validator (address aliasName : String)
    (calls : List (List Validator)) :
    (calls.foldl LocalNode.addValidators (NewLocalNode address aliasName)).hasValidators
      ((calls.foldl LocalNode.addValidators (NewLocalNode address aliasName)).address)
      = false := by
  rw [foldl_addValidators_address]
  have base : (NewLocalNode address aliasName).hasValidators
      (NewLocalNode address aliasName).address = false := rfl
  have inv : ∀ (cs : List (List Validator)) (n : LocalNode),
      n.hasValidators n.address = false →
      (cs.foldl LocalNode.addValidators n).hasValidators n.address = false := by
    intro cs
    induction cs with
    | nil => intro n hn; exact hn
    | cons c rest ih =>
      intro n hn
      simp only [List.foldl_cons]
      have := ih (n.addValidators c) (hasValidators_addValidators n c hn)
      rwa [addValidators_address] at this
  exact inv calls (NewLocalNode address aliasName) base

/-- C10: on a storage with no record under the confirmed-key prefix — no
saved block — `GetLatestBlock` returns the `BlockNotFound` error rather
than an empty block value. -/
theorem getLatestBlock_noBlocks (st : Storage)
    (h : ∀ p ∈ st, strStartsWith p.1 BlockPrefixConfirmed = false) :
    GetLatestBlock st = Except.error Err.blockNotFound := by
  have hf : st.filter (fun p => strStartsWith p.1 BlockPrefixConfirmed) = [] :=
    List.filter_eq_nil_iff.mpr (by intro a ha; simp [h a ha])
  have hd : GetBlocksByConfirmedDesc st = [] := by
    unfold GetBlocksByConfirmedDesc
    rw [hf]
    rfl
  unfold GetLatestBlock
  rw [hd]
  rfl

/-- C10 witness: `GetLatestBlock` evaluated on a storage holding only an
account record. -/
theorem getLatestBlock_noBlocks_witness :
    GetLatestBlock accountOnlyStorage = Except.error Err.blockNotFound :=
  getLatestBlock_noBlocks accountOnlyStorage (by decide)

/-- C2 counterexample: a transaction whose source and operation target
both resolve and whose total exceeds the source balance, yet `ValidateTx`
does not return `TransactionExcessAbilityToPay` — the sequence-id check
fires first.  This refutes the claimed equivalence as stated. -/
theorem validateTx_excess_claim_cex :
    GetBlockAccount seqStorage overBalanceSeqMismatchTx.source = some seqSourceAccount
    ∧ validateOps seqStorage overBalanceSeqMismatchTx.operations = none
    ∧ seqSourceAccount.balance < totalAmount overBalanceSeqMismatchTx.operations
    ∧ ¬(ValidateTx seqStorage overBalanceSeqMismatchTx =
        some Err.transactionExcessAbilityToPay) := by
  decide

/-- C2 amended: with the source resolved, the sequence ids equal, and
every operation target resolved, `ValidateTx` returns
`TransactionExcessAbilityToPay` exactly when the sum of operation amounts
plus `BaseFee` per operation exceeds the source balance, and accepts
exactly when that total is within the balance (equality included). -/
theorem validateTx_excessAbilityToPay_iff (st : Storage) (tx : TransactionBody)
    (ba : BlockAccount) (hsrc : GetBlockAccount st tx.source = some ba)
    (hseq : tx.sequenceID = ba.sequenceID)
    (hops : validateOps st tx.operations = none) :
    (ValidateTx st tx = some Err.transactionExcessAbilityToPay ↔
      ba.balance < totalAmount tx.operations)
    ∧ (ValidateTx st tx = none ↔ totalAmount tx.operations ≤ ba.balance) := by
  unfold ValidateTx
  rw [hsrc]
  simp only [hseq, ne_eq, not_true_eq_false, if_false]
  rw [hops]
  split_ifs with hb
  · exact ⟨by simp [hb], by simp; omega⟩
  · exact ⟨by simp; omega, by simp; omega⟩

/-- C2 witness: the boundary-respecting payment accepted on the test
scenario. -/
theorem validateTx_excessAbilityToPay_iff_witness :
    ValidateTx seqStorage okPaymentTx = none :=
  ((validateTx_excessAbilityToPay_iff seqStorage okPaymentTx seqSourceAccount
    (by decide) (by decide) (by decide)).2).mpr (by decide)

/-- C3 counterexample: source present, single Payment operation with an
absent target — but the transaction sequence id mismatches, so
`ValidateTx` returns `TransactionInvalidSequenceID`, not the
`BlockAccountDoesNotExists` the claim requires. -/
theorem validateTx_targets_claim_cex :
    (GetBlockAccount seqStorage missingTargetSeqMismatchTx.source).isSome = true
    ∧ missingTargetSeqMismatchTx.operations =
        [⟨OperationType.payment, "GMISSING", 10000⟩]
    ∧ existsBlockAccount seqStorage "GMISSING" = false
    ∧ ValidateTx seqStorage missingTargetSeqMismatchTx =
        some Err.transactionInvalidSequenceID
    ∧ ¬(ValidateTx seqStorage missingTargetSeqMismatchTx =
        some Err.blockAccountDoesNotExists) := by
  decide

/-- C3 amended: an absent source yields `BlockAccountDoesNotExists`; with
the source present and the sequence ids equal, the first operation whose
target check fails determines the error (`BlockAccountDoesNotExists` for a
Payment with absent target, `BlockAccountAlreadyExists` for a
CreateAccount with present target); with every target check passing and
the total within the balance, `ValidateTx` returns no error. -/
theorem validateTx_operation_targets (st : Storage) (tx : TransactionBody) :
    (GetBlockAccount st tx.source = none →
      ValidateTx st tx = some Err.blockAccountDoesNotExists)
    ∧ (∀ ba, GetBlockAccount st tx.source = some ba →
        tx.sequenceID = ba.sequenceID →
        ∀ pre op suf, tx.operations = pre ++ op :: suf →
          (∀ o ∈ pre, validateOp st o = none) →
          ((op.type = OperationType.payment →
              existsBlockAccount st op.target = false →
              ValidateTx st tx = some Err.blockAccountDoesNotExists)
            ∧ (op.type = OperationType.createAccount →
                existsBlockAccount st op.target = true →
                ValidateTx st tx = some Err.blockAccountAlreadyExists)))
    ∧ (∀ ba, GetBlockAccount st tx.source = some ba →
        tx.sequenceID = ba.sequenceID →
        (∀ o ∈ tx.operations, validateOp st o = none) →
        totalAmount tx.operations ≤ ba.balance →
        ValidateTx st tx = none) := by
  refine ⟨?_, ?_, ?_⟩
  · intro h
    unfold ValidateTx
    rw [h]
  · intro ba hsrc hseq pre op suf hops hpre
    constructor
    · intro hty htgt
      have hop : validateOp st op = some Err.blockAccountDoesNotExists := by
        unfold validateOp
        rw [hty, htgt]
        rfl
      have hall := validateOps_first_some st pre op suf _ hpre hop
      unfold ValidateTx
      rw [hsrc]
      simp only [hseq, ne_eq, not_true_eq_false, if_false]
      rw [hops, hall]
    · intro hty htgt
      have hop : validateOp st op = some Err.blockAccountAlreadyExists := by
        unfold validateOp
        rw [hty, htgt]
        rfl
      have hall := validateOps_first_some st pre op suf _ hpre hop
      unfold ValidateTx
      rw [hsrc]
      simp only [hseq, ne_eq, not_true_eq_false, if_false]
      rw [hops, hall]
  · intro ba hsrc hseq hall hbal
    unfold ValidateTx
    rw [hsrc]
    simp only [hseq, ne_eq, not_true_eq_false, if_false]
    rw [validateOps_of_all_none st tx.operations hall]
    rw [if_neg (by omega)]

/-- C3 witness: a create-account transaction for a fresh address, with a
matching sequence id and sufficient balance, accepted end to end. -/
theorem validateTx_operation_targets_witness :
    ValidateTx seqStorage createFreshTx = none :=
  (validateTx_operation_targets seqStorage createFreshTx).2.2 seqSourceAccount
    (by decide) (by decide) (by decide) (by decide)

lemma newRecord_none (st : Storage) (k : String) (v : StorageValue) (st2 : Storage)
    (h : newRecord st k v = (st2, none)) : st2 = st ++ [(k, v)] := by
  unfold newRecord at h
  by_cases hk : hasKey st k
  · rw [if_pos hk] at h
    simp at h
  · rw [if_neg hk] at h
    injection h with h1 h2
    exact h1.symm

lemma newRecord_fst_of_not_isSome (st : Storage) (k : String) (v : StorageValue)
    (h : (newRecord st k v).2.isSome = false) :
    (newRecord st k v).1 = st ++ [(k, v)] := by
  apply newRecord_none st k v
  have h2 : (newRecord st k v).2 = none := Option.not_isSome_iff_eq_none.mp (by simp [h])
  calc newRecord st k v = ((newRecord st k v).1, (newRecord st k v).2) := rfl
    _ = ((newRecord st k v).1, none) := by rw [h2]

lemma hasKey_append (st l : Storage) (k : String) :
    hasKey (st ++ l) k = (hasKey st k || hasKey l k) := by
  simp [hasKey, List.any_append]

/-- C4 counterexample: a storage already holding a record under the
height-1 key but no record for the block hash.  `Block.Save` of a fresh
height-1 block fails — and not with `BlockAlreadyExists` — yet the
post-state holds the block-hash record and the confirmed record, refuting
the claimed all-or-nothing behaviour on error. -/
theorem block_save_atomicity_cex :
    ((collidingHeightBlock.save "uid" heightOneTakenStorage).2 ≠ none)
    ∧ ((collidingHeightBlock.save "uid" heightOneTakenStorage).2 ≠
        some Err.blockAlreadyExists)
    ∧ hasKey (collidingHeightBlock.save "uid" heightOneTakenStorage).1
        (GetBlockKey collidingHeightBlock.hash) = true
    ∧ hasKey (collidingHeightBlock.save "uid" heightOneTakenStorage).1
        (collidingHeightBlock.newBlockKeyConfirmed "uid") = true
    ∧ hasKey heightOneTakenStorage (GetBlockKey collidingHeightBlock.hash) = false := by
  decide

/-- C4 amended: `Block.Save` on a storage that already holds the block
hash returns `BlockAlreadyExists` with the storage unchanged, and a save
that returns no error leaves all three records present; a failure of a
later record write, however, keeps the records already written. -/
theorem block_save_records (b : Block) (uid : String) (st : Storage) :
    (hasKey st (GetBlockKey b.hash) = true →
      b.save uid st = (st, some Err.blockAlreadyExists))
    ∧ (∀ st3, b.save uid st = (st3, none) →
        hasKey st3 (GetBlockKey b.hash) = true
        ∧ hasKey st3 (b.newBlockKeyConfirmed uid) = true
        ∧ hasKey st3 (GetBlockKeyPrefixHeight b.height) = true) := by
  constructor
  · intro h
    unfold Block.save
    simp [h]
  · intro st3 h
    unfold Block.save at h
    by_cases h0 : hasKey st (GetBlockKey b.hash)
    · rw [if_pos h0] at h
      simp at h
    · rw [if_neg h0] at h
      simp only [] at h
      by_cases c1 :
          (newRecord st (GetBlockKey b.hash) (StorageValue.block b)).2.isSome
      · rw [if_pos c1] at h
        rw [h] at c1
        simp at c1
      · rw [if_neg c1] at h
        have e1 := newRecord_fst_of_not_isSome st (GetBlockKey b.hash)
          (StorageValue.block b) (by simpa using c1)
        rw [e1] at h
        by_cases c2 :
            (newRecord (st ++ [(GetBlockKey b.hash, StorageValue.block b)])
              (b.newBlockKeyConfirmed uid) (StorageValue.str b.hash)).2.isSome
        · rw [if_pos c2] at h
          rw [h] at c2
          simp at c2
        · rw [if_neg c2] at h
          have e2 := newRecord_fst_of_not_isSome
            (st ++ [(GetBlockKey b.hash, StorageValue.block b)])
            (b.newBlockKeyConfirmed uid) (StorageValue.str b.hash)
            (by simpa using c2)
          rw [e2] at h
          have e3 := newRecord_none _ _ _ _ h
          subst e3
          refine ⟨?_, ?_, ?_⟩ <;> simp [hasKey_append, hasKey]

/-- C4 witness: a successful save on the empty storage leaves all three
records present. -/
theorem block_save_records_witness :
    hasKey (collidingHeightBlock.save "uid" []).1
      (GetBlockKey collidingHeightBlock.hash) = true
    ∧ hasKey (collidingHeightBlock.save "uid" []).1
        (collidingHeightBlock.newBlockKeyConfirmed "uid") = true
    ∧ hasKey (collidingHeightBlock.save "uid" []).1
        (GetBlockKeyPrefixHeight collidingHeightBlock.height) = true :=
  (block_save_records collidingHeightBlock "uid" []).2
    (collidingHeightBlock.save "uid" []).1 (by decide)

/-- C6 counterexample: a payment with a parsing target and amount
`2 ^ 63` — an amount at least 1 — is rejected with
`OperationAmountUnderflow`, because the Go code compares the amount after
an `int64` conversion, under which `2 ^ 63` is negative. -/
theorem payment_isWellFormed_claim_cex :
    (1 : Nat) ≤ 2 ^ 63
    ∧ OperationBodyPayment.isWellFormed (fun _ => true) ⟨"GWELL", 2 ^ 63⟩ =
        some Err.operationAmountUnderflow := by
  constructor
  · norm_num
  · decide

/-- C6 amended: for a `uint64` amount, `IsWellFormed` succeeds exactly
when the target parses and `1 ≤ amount < 2 ^ 63`; for a parsing target it
returns `OperationAmountUnderflow` exactly when the amount is 0 or at
least `2 ^ 63` (such amounts are negative as `int64`). -/
theorem payment_isWellFormed_iff (parseOk : String → Bool)
    (o : OperationBodyPayment) (h64 : o.amount < 2 ^ 64) :
    (OperationBodyPayment.isWellFormed parseOk o = none ↔
      parseOk o.target = true ∧ 1 ≤ o.amount ∧ o.amount < 2 ^ 63)
    ∧ (parseOk o.target = true →
        (OperationBodyPayment.isWellFormed parseOk o =
            some Err.operationAmountUnderflow
          ↔ (o.amount = 0 ∨ 2 ^ 63 ≤ o.amount))) := by
  have hmod : o.amount % 2 ^ 64 = o.amount := Nat.mod_eq_of_lt h64
  unfold OperationBodyPayment.isWellFormed int64OfUInt64
  rw [hmod]
  by_cases hp : parseOk o.target = false
  · constructor
    · simp [hp]
    · intro hc
      rw [hp] at hc
      exact absurd hc (by simp)
  · have hpt : parseOk o.target = true := by
      revert hp; cases parseOk o.target <;> simp
    rw [if_neg hp]
    split_ifs with h1 h2 h2
    · exact ⟨by simp [hpt]; omega, fun _ => by simp; omega⟩
    · exact ⟨by simp [hpt]; omega, fun _ => by simp; omega⟩
    · exact ⟨by simp [hpt]; omega, fun _ => by simp; omega⟩
    · exact ⟨by simp [hpt]; omega, fun _ => by simp; omega⟩

/-- C6 witness: a normal amount accepted for a parsing target. -/
theorem payment_isWellFormed_iff_witness :
    OperationBodyPayment.isWellFormed (fun _ => true) ⟨"GOK", 10⟩ = none :=
  ((payment_isWellFormed_iff (fun _ => true) ⟨"GOK", 10⟩ (by norm_num)).1).mpr
    (by refine ⟨rfl, by norm_num, by norm_num⟩)

lemma beVal_append_singleton (ds : List Nat) (d : Nat) :
    beVal (ds ++ [d]) = 10 * beVal ds + d := by
  induction ds with
  | nil => simp [beVal]
  | cons e es ih =>
    show beVal (e :: (es ++ [d])) = 10 * beVal (e :: es) + d
    simp only [beVal, List.length_append, List.length_cons, List.length_nil, ih]
    ring

lemma beVal_digitsAux : ∀ (f n : Nat), n ≤ f → beVal (digitsAux f n) = n := by
  intro f
  induction f with
  | zero =>
    intro n hn
    have h0 : n = 0 := Nat.le_zero.mp hn
    subst h0
    rfl
  | succ f ih =>
    intro n hn
    by_cases h0 : n = 0
    · subst h0; rfl
    · have hrec : n / 10 ≤ f := by
        have : n / 10 < n := Nat.div_lt_self (Nat.pos_of_ne_zero h0) (by norm_num)
        omega
      simp only [digitsAux, if_neg h0]
      rw [beVal_append_singleton, ih _ hrec]
      omega

lemma digitsAux_lt_ten : ∀ (f n d : Nat), d ∈ digitsAux f n → d < 10 := by
  intro f
  induction f with
  | zero => intro n d hd; simp [digitsAux] at hd
  | succ f ih =>
    intro n d hd
    simp only [digitsAux] at hd
    by_cases h0 : n = 0
    · rw [if_pos h0] at hd; simp at hd
    · rw [if_neg h0] at hd
      rcases List.mem_append.mp hd with h | h
      · exact ih _ d h
      · have : d = n % 10 := by simpa using h
        omega

lemma digitsAux_length : ∀ (f n k : Nat), n ≤ f → n < 10 ^ k →
    (digitsAux f n).length ≤ k := by
  intro f
  induction f with
  | zero =>
    intro n k hn _
    have h0 : n = 0 := Nat.le_zero.mp hn
    subst h0
    simp [digitsAux]
  | succ f ih =>
    intro n k hn hk
    by_cases h0 : n = 0
    · subst h0; simp [digitsAux]
    · cases k with
      | zero =>
        simp only [pow_zero] at hk
        omega
      | succ k =>
        simp only [digitsAux, if_neg h0, List.length_append, List.length_cons,
          List.length_nil]
        have hrec : n / 10 ≤ f := by
          have : n / 10 < n := Nat.div_lt_self (Nat.pos_of_ne_zero h0) (by norm_num)
          omega
        have hdiv : n / 10 < 10 ^ k := by
          rw [pow_succ] at hk
          omega
        have := ih (n / 10) k hrec hdiv
        omega

lemma beVal_lt_pow : ∀ ds : List Nat, (∀ d ∈ ds, d < 10) →
    beVal ds < 10 ^ ds.length := by
  intro ds
  induction ds with
  | nil => intro _; simp [beVal]
  | cons d rest ih =>
    intro h
    have hd : d < 10 := h d (List.mem_cons_self d rest)
    have hrest := ih (fun x hx => h x (List.mem_cons_of_mem d hx))
    simp only [beVal, List.length_cons]
    calc d * 10 ^ rest.length + beVal rest
        < d * 10 ^ rest.length + 10 ^ rest.length := by omega
      _ = (d + 1) * 10 ^ rest.length := by ring
      _ ≤ 10 * 10 ^ rest.length := Nat.mul_le_mul (by omega) le_rfl
      _ = 10 ^ (rest.length + 1) := by ring

lemma heightDigits_length (h : Nat) (hlt : h < 10 ^ 20) :
    (heightDigits h).length = 20 := by
  have hlen : (digitsAux h h).length ≤ 20 := digitsAux_length h h 20 le_rfl hlt
  unfold heightDigits toDigitsBE maxBlockHeightStringLength
  simp only [List.length_append, List.length_replicate]
  omega

lemma beVal_replicate_zero : ∀ (k : Nat) (ds : List Nat),
    beVal (List.replicate k 0 ++ ds) = beVal ds := by
  intro k
  induction k with
  | zero => intro ds; rfl
  | succ k ih =>
    intro ds
    show beVal (0 :: (List.replicate k 0 ++ ds)) = beVal ds
    simp only [beVal, ih]
    omega

lemma heightDigits_beVal (h : Nat) : beVal (heightDigits h) = h := by
  unfold heightDigits toDigitsBE
  rw [beVal_replicate_zero]
  exact beVal_digitsAux h h le_rfl

lemma heightDigits_lt_ten (h : Nat) : ∀ d ∈ heightDigits h, d < 10 := by
  intro d hd
  unfold heightDigits at hd
  rcases List.mem_append.mp hd with hm | hm
  · have := List.eq_of_mem_replicate hm
    omega
  · exact digitsAux_lt_ten h h d hm

lemma digitChar_lt_forall :
    ∀ a < 10, ∀ b < 10, a < b → digitChar a < digitChar b := by
  decide

lemma lex_map_digitChar_of_beVal_lt :
    ∀ (ds es : List Nat), ds.length = es.length →
      (∀ d ∈ ds, d < 10) → (∀ e ∈ es, e < 10) →
      beVal ds < beVal es →
      List.Lex (· < ·) (ds.map digitChar) (es.map digitChar) := by
  intro ds
  induction ds with
  | nil =>
    intro es hlen _ _ hval
    cases es with
    | nil => simp [beVal] at hval
    | cons e es2 => simp at hlen
  | cons a as ih =>
    intro es hlen hds hes hval
    cases es with
    | nil => simp at hlen
    | cons b bs =>
      have hlen2 : as.length = bs.length := by simpa using hlen
      have ha : a < 10 := hds a (List.mem_cons_self a as)
      have hb : b < 10 := hes b (List.mem_cons_self b bs)
      rcases Nat.lt_trichotomy a b with hab | hab | hab
      · exact List.Lex.rel (digitChar_lt_forall a ha b hb hab)
      · subst hab
        apply List.Lex.cons
        apply ih bs hlen2 (fun d hd => hds d (List.mem_cons_of_mem a hd))
          (fun e he => hes e (List.mem_cons_of_mem a he))
        simp only [beVal] at hval
        rw [hlen2] at hval
        omega
      · exfalso
        have hbs : beVal bs < 10 ^ bs.length :=
          beVal_lt_pow bs (fun e he => hes e (List.mem_cons_of_mem b he))
        simp only [beVal] at hval
        rw [hlen2] at hval
        have hP : (b + 1) * 10 ^ bs.length = b * 10 ^ bs.length + 10 ^ bs.length := by
          ring
        have hle : (b + 1) * 10 ^ bs.length ≤ a * 10 ^ bs.length :=
          Nat.mul_le_mul (by omega) le_rfl
        omega

lemma lex_append_both :
    ∀ {as bs : List Char}, as.length = bs.length → List.Lex (· < ·) as bs →
      ∀ (zs ws : List Char), List.Lex (· < ·) (as ++ zs) (bs ++ ws) := by
  intro as
  induction as with
  | nil =>
    intro bs hlen h zs ws
    cases h with
    | nil => simp at hlen
  | cons a as2 ih =>
    intro bs hlen h zs ws
    cases bs with
    | nil => cases h
    | cons b bs2 =>
      cases h with
      | cons h2 => exact List.Lex.cons (ih (by simpa using hlen) h2 zs ws)
      | rel hr => exact List.Lex.rel hr

/-- C8: height keys preserve numeric order lexicographically — for
heights `h1 < h2` below `10 ^ 20`, `GetBlockKeyPrefixHeight h1` is
strictly below `GetBlockKeyPrefixHeight h2` in the string order. -/
theorem getBlockKeyPrefixHeight_strictMono (h1 h2 : Nat) (hlt : h1 < h2)
    (hub : h2 < 10 ^ 20) :
    GetBlockKeyPrefixHeight h1 < GetBlockKeyPrefixHeight h2 := by
  have hub1 : h1 < 10 ^ 20 := lt_trans hlt hub
  rw [String.lt_iff_toList_lt]
  show BlockPrefixHeight.data ++ (heightDigits h1).map digitChar ++ ['-']
      < BlockPrefixHeight.data ++ (heightDigits h2).map digitChar ++ ['-']
  rw [List.append_assoc, List.append_assoc]
  show List.Lex (· < ·)
    (BlockPrefixHeight.data ++ ((heightDigits h1).map digitChar ++ ['-']))
    (BlockPrefixHeight.data ++ ((heightDigits h2).map digitChar ++ ['-']))
  apply List.Lex.append_left
  apply lex_append_both
  · simp [heightDigits_length h1 hub1, heightDigits_length h2 hub]
  · apply lex_map_digitChar_of_beVal_lt
    · rw [heightDigits_length h1 hub1, heightDigits_length h2 hub]
    · exact heightDigits_lt_ten h1
    · exact heightDigits_lt_ten h2
    · rw [heightDigits_beVal, heightDigits_beVal]
      exact hlt

/-- C8 witness: the height-key order evaluated at heights 1 and 2. -/
theorem getBlockKeyPrefixHeight_strictMono_witness :
    (1 : Nat) < 2 ∧ (2 : Nat) < 10 ^ 20
    ∧ GetBlockKeyPrefixHeight 1 < GetBlockKeyPrefixHeight 2 :=
  ⟨by norm_num, by norm_num,
    getBlockKeyPrefixHeight_strictMono 1 2 (by norm_num) (by norm_num)⟩

end Sebak
